import Mathlib

/-!
Shallow embedding of the sync / garbage-collection core of
`bulletin_assets_with_prune.py` (and the folder derivation of
`bulletin_assets.py`).

Conventions of the embedding:
* Python strings are `String`; the Python string operations the code uses
  (`str.split()`, `str.startswith`, `<` / `<=` on `str`, slicing) are
  re-implemented structurally over `String.data : List Char` so that they
  evaluate inside the kernel; Python compares strings lexicographically by
  code point, which is exactly `charsLt` below.  ISO-8601 UTC timestamp
  strings are compared with this lexicographic order, exactly as the Python
  code compares them with `<` on `str`.
* Python dicts keyed by path are association lists `List (String × AssetRec)`
  with distinct keys (a Python dict cannot repeat a key); dict assignment
  updates in place when the key exists and appends otherwise, and `pop`
  removes the key.
* Network effects are supplied as explicit oracles: the outcome of fetching
  and transcoding a source URL (`fetchR`), of the GET-sha + PUT pair for a
  repo path (`putR`), and of the GET-sha + DELETE pair for a repo path
  (`DeleteResp`).  `slugify` and the md5-based `sha8` are external library
  functions, supplied as function parameters (`slug`, `hash8`).  Wall-clock
  values (`now`, and the prune `cutoff` string computed from
  `utcnow() - timedelta(days=retention_days)`) are passed as parameters,
  since `datetime.utcnow()` is environmental.
* Python exceptions are `Except String` carrying the exception's `str(e)`.
-/

namespace BulletinAssets

/-- Python `str.split()` with no separator, worker: split on runs of
whitespace, dropping empty tokens (`acc` is the current token, reversed). -/
def splitWsAux : List Char → List Char → List String
  | [], acc => if acc.isEmpty then [] else [String.mk acc.reverse]
  | c :: cs, acc =>
    if c.isWhitespace then
      if acc.isEmpty then splitWsAux cs [] else String.mk acc.reverse :: splitWsAux cs []
    else splitWsAux cs (c :: acc)

/-- Python `s.split()`: whitespace-delimited tokens, no empties.  Note that
leading/trailing whitespace contributes no token, so a preceding
`s.strip()` is absorbed by this function. -/
def pySplit (s : String) : List String := splitWsAux s.data []

/-- Worker for Python `s.startswith(pref)`. -/
def startsWithChars : List Char → List Char → Bool
  | _, [] => true
  | [], _ :: _ => false
  | a :: as, b :: bs => a == b && startsWithChars as bs

/-- Python `s.startswith(pref)`. -/
def pyStartsWith (s pref : String) : Bool := startsWithChars s.data pref.data

/-- Lexicographic (code-point) strict order on char lists: Python `<` on
`str`. -/
def charsLt : List Char → List Char → Bool
  | [], [] => false
  | [], _ :: _ => true
  | _ :: _, [] => false
  | a :: as, b :: bs => if a < b then true else if b < a then false else charsLt as bs

/-- Python `a < b` on strings. -/
def pyStrLt (a b : String) : Bool := charsLt a.data b.data

/-- Python `a <= b` on strings (total order: `a <= b` iff not `b < a`). -/
def pyStrLe (a b : String) : Bool := !(pyStrLt b a)

/-- `OWNER` constant from the config block. -/
def OWNER : String := "LogunLACC"

/-- `REPO` constant from the config block. -/
def REPO : String := "lacc-bulletin-assets"

/-- `PAGES_BASE = f"https://{OWNER}.github.io/{REPO}"`. -/
def PAGES_BASE : String := "https://" ++ OWNER ++ ".github.io/" ++ REPO

/-- `PROTECT_PREFIXES` config list: path prefixes pinned against deletion. -/
def PROTECT_PREFIXES : List String := ["img/static/"]

/-- `is_protected(path)`: true iff `path` starts with some protected prefix. -/
def is_protected (path : String) : Bool :=
  PROTECT_PREFIXES.any (fun pref => pyStartsWith path pref)

/-- The `months` table shared by both scripts, as a partial lookup:
`monthLookup m = some code` iff `m` is a known three-letter abbreviation. -/
def monthLookup (m : String) : Option String :=
  if m = "Jan" then some "01" else if m = "Feb" then some "02"
  else if m = "Mar" then some "03" else if m = "Apr" then some "04"
  else if m = "May" then some "05" else if m = "Jun" then some "06"
  else if m = "Jul" then some "07" else if m = "Aug" then some "08"
  else if m = "Sep" then some "09" else if m = "Oct" then some "10"
  else if m = "Nov" then some "11" else if m = "Dec" then some "12"
  else none

/-- `month_folder_from_date(datestr)` of `bulletin_assets_with_prune.py`:
`year = parts[-1]` and `mon = parts[2]` raise `IndexError` (caught by the
`except`, giving `"undated"`) exactly when `parts` has fewer than 3 tokens;
otherwise the result is `f"{year}/{months.get(mon,'00')}"` — an unknown
abbreviation maps to the code `"00"`.  The source's `datestr.strip()` is
absorbed by `pySplit`. -/
def month_folder_from_date (datestr : String) : String :=
  let parts := pySplit datestr
  match parts.getLast?, parts.get? 2 with
  | some year, some mon => year ++ "/" ++ (monthLookup mon).getD "00"
  | _, _ => "undated"

/-- `month_folder(date_str)` of `bulletin_assets.py`: same token extraction,
but `m = {...}[mon]` raises `KeyError` on an unknown abbreviation, caught by
the bare `except`, giving `"undated"`. -/
def month_folder (date_str : String) : String :=
  let parts := pySplit date_str
  match parts.getLast?, parts.get? 2 with
  | some y, some mon =>
    match monthLookup mon with
    | some m => y ++ "/" ++ m
    | none => "undated"
  | _, _ => "undated"

/-- An event record from `events.json`.  `image_jpg` / `image_jpg_error`
model the keys the sync may add (absent on clean input). -/
structure Event where
  title : Option String := none
  date : Option String := none
  image : Option String := none
  image_jpg : Option String := none
  image_jpg_error : Option String := none
  deriving Repr, DecidableEq

/-- One manifest record (`manifest["images"][path]`).  Every field is
optional because the manifest is loaded from arbitrary JSON; records written
by this run always carry `first_added` and `last_seen`. -/
structure AssetRec where
  first_added : Option String := none
  last_seen : Option String := none
  title : Option String := none
  source : Option String := none
  deriving Repr, DecidableEq

/-- The manifest: `{"images": {path: record}}`, as an association list with
distinct keys (a Python dict). -/
structure Manifest where
  images : List (String × AssetRec) := []
  deriving Repr, DecidableEq

/-- Python `images.get(path)`: the record at `path`, if present (keys are
unique in a dict, so the first match is the match). -/
def lookupImage : List (String × AssetRec) → String → Option AssetRec
  | [], _ => none
  | e :: l, p => if e.1 = p then some e.2 else lookupImage l p

/-- Python dict assignment `images[k] = v`: replace in place when the key
exists, append otherwise. -/
def setImage (images : List (String × AssetRec)) (k : String) (v : AssetRec) :
    List (String × AssetRec) :=
  if images.any (fun e => e.1 = k) then
    images.map (fun e => if e.1 = k then (k, v) else e)
  else images ++ [(k, v)]

/-- Python `manifest["images"].pop(path, None)`. -/
def removeImage (m : Manifest) (p : String) : Manifest :=
  { images := m.images.filter (fun e => e.1 ≠ p) }

/-- The message of the `RuntimeError` raised by `gh_headers()`. -/
def missingTokenMsg : String := "Missing GITHUB_TOKEN environment variable."

/-- `gh_headers()`: raises `RuntimeError("Missing GITHUB_TOKEN environment
variable.")` when `os.environ.get("GITHUB_TOKEN")` is `None` or falsy
(absent or empty); otherwise the auth headers. -/
def gh_headers (token : Option String) : Except String (List (String × String)) :=
  match token with
  | none => Except.error missingTokenMsg
  | some t =>
    if t = "" then Except.error missingTokenMsg
    else Except.ok [("Authorization", "Bearer " ++ t), ("Accept", "application/vnd.github+json")]

/-- The environment of a sync run: the `GITHUB_TOKEN` value, the external
`slugify` / `sha8` functions, and the network oracles.  `fetchR src` is the
combined outcome of `requests.get(src)`, `raise_for_status()` and
`to_jpg_bytes` for a source URL; `putR path` is the outcome of the network
part of `gh_put_file` (GET-sha plus PUT) for a repo path once the token
check has passed.  Error values carry the Python exception's `str(e)`. -/
structure SyncEnv where
  token : Option String
  slug : String → String
  hash8 : String → String
  fetchR : String → Except String Unit
  putR : String → Except String Unit

/-- `gh_put_file`: `gh_get_sha` first evaluates `gh_headers()` (raising if
the token is absent), then the network part runs (modelled by `putR`); a
response with status ≥ 400 raises `PUT ... failed`, which is an `error`
outcome of `putR`. -/
def gh_put_file (env : SyncEnv) (path : String) : Except String Unit := do
  let _ ← gh_headers env.token
  env.putR path

/-- Path derivation of `process_events` (lines 148–151):
`stem = slugify(title)[:60] or "img"`, `fname = f"{stem}-{sha8(src)}.jpg"`,
`rel_path = f"img/{month_folder_from_date(date)}/{fname}"`.  Python slicing
is by code point, hence `List.take` on `data`. -/
def relPathOf (env : SyncEnv) (title date src : String) : String :=
  let stem0 := String.mk ((env.slug title).data.take 60)
  let stem := if stem0 = "" then "img" else stem0
  let fname := stem ++ "-" ++ env.hash8 src ++ ".jpg"
  let subdir := month_folder_from_date date
  "img/" ++ subdir ++ "/" ++ fname

/-- The body of the per-event `try` block up to and including the upload:
fetch + transcode (`fetchR`), then path derivation, then `gh_put_file`.
Returns the uploaded `rel_path` on success, the first exception's message
otherwise. -/
def pipelineStep (env : SyncEnv) (ev : Event) (src : String) : Except String String := do
  env.fetchR src
  gh_put_file env (relPathOf env (ev.title.getD "") (ev.date.getD "") src)
  Except.ok (relPathOf env (ev.title.getD "") (ev.date.getD "") src)

/-- Manifest upsert of `process_events` (lines 159–163):
`rec = images.get(rel_path, {"first_added": now, "title": title, "source":
src})`, then `rec["last_seen"] = now`, `rec["title"] = title or
rec.get("title")`, `rec["source"] = src`, `images[rel_path] = rec`. -/
def upsertImage (images : List (String × AssetRec)) (rel now title src : String) :
    List (String × AssetRec) :=
  let rec0 :=
    match lookupImage images rel with
    | some r => r
    | none => { first_added := some now, last_seen := none,
                title := some title, source := some src : AssetRec }
  let rec1 : AssetRec :=
    { first_added := rec0.first_added, last_seen := some now,
      title := if title = "" then rec0.title else some title, source := some src }
  setImage images rel rec1

/-- In-run mutable state of `process_events`: the `images` dict and the
`seen_paths` set (a set of strings, modelled as a duplicate-free list). -/
structure SyncState where
  images : List (String × AssetRec)
  seen : List String
  deriving Repr

/-- One iteration of the event loop of `process_events` (lines 135–169):
`if not src` passes the event through; otherwise the `try` block runs and
on success the event gains `image_jpg`, the manifest record is upserted and
the path is added to `seen_paths`; on failure the event gains
`image_jpg_error` and the state is untouched. -/
def processEvent (env : SyncEnv) (now : String) (st : SyncState) (ev : Event) :
    Event × SyncState :=
  match ev.image with
  | none => (ev, st)
  | some src =>
    if src = "" then (ev, st)
    else
      match pipelineStep env ev src with
      | Except.ok rel =>
        ({ ev with image_jpg := some (PAGES_BASE ++ "/" ++ rel) },
         { images := upsertImage st.images rel now (ev.title.getD "") src,
           seen := st.seen.insert rel })
      | Except.error e => ({ ev with image_jpg_error := some e }, st)

/-- The event loop: processes events in order, threading the state and
collecting the annotated events in order. -/
def processEventsAux (env : SyncEnv) (now : String) :
    List Event → SyncState → List Event × SyncState
  | [], st => ([], st)
  | ev :: rest, st =>
    let p := processEvent env now st ev
    let r := processEventsAux env now rest p.2
    (p.1 :: r.1, r.2)

/-- `process_events(...)`: given the loaded manifest `m0` (the real code
calls `load_manifest()` here; see `load_manifest` below) and the run's
timestamp `now = now_iso()`, returns the annotated event list, the mutated
manifest, and the seen set.  File/CSV output is plumbing and not modelled. -/
def process_events (env : SyncEnv) (now : String) (events : List Event) (m0 : Manifest) :
    List Event × Manifest × List String :=
  let r := processEventsAux env now events { images := m0.images, seen := [] }
  (r.1, { images := r.2.images }, r.2.seen)

/-- The annotation a single event receives, as a function of the event and
the environment alone (the loop state never influences it). -/
def annotateEvent (env : SyncEnv) (ev : Event) : Event :=
  match ev.image with
  | none => ev
  | some src =>
    if src = "" then ev
    else
      match pipelineStep env ev src with
      | Except.ok rel => { ev with image_jpg := some (PAGES_BASE ++ "/" ++ rel) }
      | Except.error e => { ev with image_jpg_error := some e }

/-- The path an event successfully uploads, if any. -/
def evOutcome (env : SyncEnv) (ev : Event) : Option String :=
  match ev.image with
  | none => none
  | some src =>
    if src = "" then none
    else
      match pipelineStep env ev src with
      | Except.ok rel => some rel
      | Except.error _ => none

/-- The paths successfully uploaded by a run, in order of first production. -/
def producedPaths (env : SyncEnv) (events : List Event) : List String :=
  events.filterMap (evOutcome env)

/-- `load_manifest()`: `requests.get(raw_url)` may itself raise (a transport
error is NOT caught — only `json.loads` is inside the `try`); a 200 response
is parsed (parse failure falls through), anything else falls through to
`{"images": {}}`.  `resp` is the fetch outcome (`error` = the transport
exception), `parseManifest` models `json.loads`-as-manifest (`none` = parse
exception). -/
def load_manifest (resp : Except String (Nat × String))
    (parseManifest : String → Option Manifest) : Except String Manifest :=
  match resp with
  | Except.error e => Except.error e
  | Except.ok (status, text) =>
    if status = 200 then
      match parseManifest text with
      | some m => Except.ok m
      | none => Except.ok { images := [] }
    else Except.ok { images := [] }

/-- Outcome of the remote side of `gh_delete_file` for one path:
`absent` = `gh_get_sha` found no object (returns `None`); `resp status
body` = the object existed and the DELETE request answered with this
status. -/
inductive DeleteResp where
  | absent : DeleteResp
  | resp (status : Nat) (body : String) : DeleteResp
  deriving Repr, DecidableEq

/-- `gh_delete_file(path, message, dry_run)`: in dry-run it only prints and
returns `True`; otherwise `gh_get_sha` runs (whose `gh_headers()` raises if
the token is missing), an absent object yields `False`, and a DELETE
response outside {200, 204} raises `Delete failed for ...`. -/
def gh_delete_file (token : Option String) (remote : String → DeleteResp)
    (path : String) (dryRun : Bool) : Except String Bool :=
  if dryRun then Except.ok true
  else
    match gh_headers token with
    | Except.error e => Except.error e
    | Except.ok _ =>
      match remote path with
      | DeleteResp.absent => Except.ok false
      | DeleteResp.resp status body =>
        if status = 200 ∨ status = 204 then Except.ok true
        else Except.error ("Delete failed for " ++ path ++ ": " ++ toString status ++ " " ++ body)

/-- The candidate test of `prune_old` (lines 183–189): skip protected paths
(`continue`); otherwise delete only if the path was not seen this run AND
`last_seen` is truthy (present and non-empty) AND `last_seen < cutoff_iso`
as Python strings. -/
def isPruneCandidate (seen : List String) (cutoff : String) (p : String) (r : AssetRec) :
    Bool :=
  if is_protected p then false
  else
    !(decide (p ∈ seen)) &&
    (match r.last_seen with
     | some ls => !(decide (ls = "")) && pyStrLt ls cutoff
     | none => false)

/-- The `to_delete` list of `prune_old`: candidate paths in manifest order
(the snapshot `list(manifest["images"].items())` is taken before any
deletion). -/
def pruneCandidates (m : Manifest) (seen : List String) (cutoff : String) : List String :=
  (m.images.filter (fun e => isPruneCandidate seen cutoff e.1 e.2)).map (fun e => e.1)

/-- The deletion loop of `prune_old` (lines 191–196): for each candidate,
`gh_delete_file`; a `True` result appends to `deleted` and (when live) pops
the manifest entry; a `False` result does nothing; a raised exception
propagates out of `prune_old` uncaught (the in-place manifest mutations so
far survive, the local `deleted` list is lost — the error outcome carries
the mutated manifest). -/
def pruneDeleteLoop (token : Option String) (remote : String → DeleteResp) (dryRun : Bool) :
    List String → Manifest → List String → Except (String × Manifest) (List String × Manifest)
  | [], m, deleted => Except.ok (deleted, m)
  | p :: rest, m, deleted =>
    match gh_delete_file token remote p dryRun with
    | Except.error e => Except.error (e, m)
    | Except.ok true =>
      pruneDeleteLoop token remote dryRun rest
        (if dryRun then m else removeImage m p) (deleted ++ [p])
    | Except.ok false => pruneDeleteLoop token remote dryRun rest m deleted

/-- `prune_old(manifest, seen_paths, retention_days, dry_run)`.  `cutoff` is
the ISO string of `utcnow() - timedelta(days=retention_days)` (computed from
the wall clock, hence a parameter).  Returns the `deleted` list together
with the (in-place mutated) manifest. -/
def prune_old (token : Option String) (remote : String → DeleteResp) (m : Manifest)
    (seen : List String) (cutoff : String) (dryRun : Bool) :
    Except (String × Manifest) (List String × Manifest) :=
  pruneDeleteLoop token remote dryRun (pruneCandidates m seen cutoff) m []

/-! Concrete fixtures used to exercise the model on explicit inputs. -/

/-- A stale record: `last_seen` far in the past. -/
def recStale : AssetRec :=
  { first_added := some "2020-01-01T00:00:00Z", last_seen := some "2020-01-02T00:00:00Z",
    title := some "a", source := some "s" }

/-- A record whose `last_seen` key is missing. -/
def recNoSeen : AssetRec :=
  { first_added := some "2020-01-01T00:00:00Z", last_seen := none,
    title := some "a", source := some "s" }

/-- A record whose `last_seen` is exactly a boundary instant. -/
def recBoundary : AssetRec :=
  { first_added := some "2020-01-01T00:00:00Z", last_seen := some "2025-01-01T00:00:00Z",
    title := some "a", source := some "s" }

/-- Manifest with a single stale, unprotected entry. -/
def mStale : Manifest := { images := [("img/a.jpg", recStale)] }

/-- Manifest with two stale, unprotected entries. -/
def mTwoStale : Manifest := { images := [("img/a.jpg", recStale), ("img/b.jpg", recStale)] }

/-- Manifest with a single stale entry under the protected prefix. -/
def mProtected : Manifest := { images := [("img/static/pin.jpg", recStale)] }

/-- Manifest whose single entry has no `last_seen`. -/
def mNoSeen : Manifest := { images := [("img/a.jpg", recNoSeen)] }

/-- A retention cutoff newer than `recStale.last_seen` and equal to
`recBoundary.last_seen`. -/
def cutoff0 : String := "2025-01-01T00:00:00Z"

/-- Remote on which every object is already absent at delete time. -/
def remoteAbsent : String → DeleteResp := fun _ => DeleteResp.absent

/-- Remote on which deleting `img/a.jpg` answers 500 and anything else 200. -/
def remoteFailA : String → DeleteResp :=
  fun p => if p = "img/a.jpg" then DeleteResp.resp 500 "boom" else DeleteResp.resp 200 "ok"

/-- Sync environment with the `GITHUB_TOKEN` absent and all network calls
succeeding. -/
def envNoToken : SyncEnv :=
  { token := none, slug := fun s => s, hash8 := fun _ => "h",
    fetchR := fun _ => Except.ok (), putR := fun _ => Except.ok () }

/-- Fully healthy sync environment. -/
def envOk : SyncEnv :=
  { token := some "tk", slug := fun s => s, hash8 := fun _ => "deadbeef",
    fetchR := fun _ => Except.ok (), putR := fun _ => Except.ok () }

/-- The end-to-end scenario event of the spec. -/
def evFarmers : Event :=
  { title := some "Farmers Market", date := some "Sat, 06 Sep 2025",
    image := some "https://x/a.png" }

/-- A minimal event with a source image. -/
def evPlain : Event := { title := some "t", date := none, image := some "u" }

/-- The manifest produced by syncing `[evFarmers]` under `envOk` from an
empty manifest at `2025-09-06T00:00:00Z`. -/
def mFarmers1 : Manifest :=
  { images := [("img/2025/09/Farmers Market-deadbeef.jpg",
      { first_added := some "2025-09-06T00:00:00Z",
        last_seen := some "2025-09-06T00:00:00Z",
        title := some "Farmers Market",
        source := some "https://x/a.png" })] }

/-! ## Theorems -/

/-- C5 counterexample: on an unknown month abbreviation in an otherwise
well-formed date string, `month_folder_from_date` returns `"<year>/00"`,
not the claimed `"undated"`. -/
theorem month_folder_unknown_month_cex :
    month_folder_from_date "Sat, 06 Xyz 2025" = "2025/00" ∧
    ("2025/00" : String) ≠ "undated" := by
  constructor
  · rfl
  · decide

/-- C5 (amended): the folder derivation never raises and behaves as follows.
With fewer than 3 whitespace tokens (the `IndexError` paths), both variants
return `"undated"`.  With at least 3 tokens, taking the last token as year
and token index 2 as month: a known month abbreviation gives
`"<year>/<code>"` in both variants; an unknown abbreviation gives
`"<year>/00"` in `month_folder_from_date` (the `.get(mon,'00')` default)
but `"undated"` in `bulletin_assets.py`'s `month_folder` (the `KeyError`
path). -/
theorem month_folder_behavior (ds y mon code : String) :
    ((pySplit ds).length < 3 →
      month_folder_from_date ds = "undated" ∧ month_folder ds = "undated") ∧
    ((pySplit ds).getLast? = some y → (pySplit ds).get? 2 = some mon →
      monthLookup mon = some code →
      month_folder_from_date ds = y ++ "/" ++ code ∧ month_folder ds = y ++ "/" ++ code) ∧
    ((pySplit ds).getLast? = some y → (pySplit ds).get? 2 = some mon →
      monthLookup mon = none →
      month_folder_from_date ds = y ++ "/" ++ "00" ∧ month_folder ds = "undated") := by
  have e1 : month_folder_from_date ds =
      (match (pySplit ds).getLast?, (pySplit ds).get? 2 with
       | some year, some m => year ++ "/" ++ (monthLookup m).getD "00"
       | _, _ => "undated") := rfl
  have e2 : month_folder ds =
      (match (pySplit ds).getLast?, (pySplit ds).get? 2 with
       | some year, some m =>
         (match monthLookup m with
          | some c => year ++ "/" ++ c
          | none => "undated")
       | _, _ => "undated") := rfl
  refine ⟨?_, ?_, ?_⟩
  · intro h
    have h2 : (pySplit ds).get? 2 = none := List.get?_eq_none.mpr (by omega)
    rw [e1, e2, h2]
    cases (pySplit ds).getLast? <;> exact ⟨rfl, rfl⟩
  · intro hL h2 hc
    rw [e1, e2, hL, h2]
    dsimp only
    rw [hc]
    exact ⟨rfl, rfl⟩
  · intro hL h2 hc
    rw [e1, e2, hL, h2]
    dsimp only
    rw [hc]
    exact ⟨rfl, rfl⟩

/-- Witness for `month_folder_behavior` at concrete inputs: a well-formed
date, and the unknown-abbreviation date of the counterexample. -/
theorem month_folder_behavior_witness :
    ((pySplit "Sat, 06 Sep 2025").getLast? = some "2025" ∧
     (pySplit "Sat, 06 Sep 2025").get? 2 = some "Sep" ∧
     monthLookup "Sep" = some "09") ∧
    (month_folder_from_date "Sat, 06 Sep 2025" = "2025" ++ "/" ++ "09" ∧
     month_folder "Sat, 06 Sep 2025" = "2025" ++ "/" ++ "09") := by
  refine ⟨⟨by decide, by decide, by decide⟩, ?_⟩
  exact (month_folder_behavior "Sat, 06 Sep 2025" "2025" "Sep" "09").2.1
    (by decide) (by decide) (by decide)

/-! ### Garbage-collection infrastructure lemmas -/

theorem charsLt_irrefl : ∀ cs : List Char, charsLt cs cs = false
  | [] => rfl
  | c :: cs => by
    unfold charsLt
    rw [if_neg (lt_irrefl c), if_neg (lt_irrefl c)]
    exact charsLt_irrefl cs

theorem pyStrLt_irrefl (s : String) : pyStrLt s s = false := charsLt_irrefl s.data

theorem mem_pruneCandidates {m : Manifest} {seen : List String} {cutoff p : String} :
    p ∈ pruneCandidates m seen cutoff ↔
    ∃ r, (p, r) ∈ m.images ∧ isPruneCandidate seen cutoff p r = true := by
  unfold pruneCandidates
  constructor
  · intro h
    obtain ⟨e, he, hfst⟩ := List.mem_map.mp h
    obtain ⟨hm, hc⟩ := List.mem_filter.mp he
    refine ⟨e.2, ?_, ?_⟩
    · rw [← hfst]; exact hm
    · rw [← hfst]; exact hc
  · rintro ⟨r, hm, hc⟩
    exact List.mem_map.mpr ⟨(p, r), List.mem_filter.mpr ⟨hm, hc⟩, rfl⟩

theorem assoc_nodup_eq : ∀ {l : List (String × AssetRec)} {p : String} {r r' : AssetRec},
    (l.map Prod.fst).Nodup → (p, r) ∈ l → (p, r') ∈ l → r = r'
  | [], _, _, _, _, h1, _ => absurd h1 (List.not_mem_nil _)
  | e :: l, p, r, r', hnd, h1, h2 => by
    have hnd' := hnd
    rw [List.map_cons, List.nodup_cons] at hnd'
    rcases List.mem_cons.mp h1 with he1 | ht1 <;> rcases List.mem_cons.mp h2 with he2 | ht2
    · rw [← he1] at he2; exact (Prod.mk.injEq _ _ _ _ ▸ he2.symm).2.symm ▸ rfl
    · exact absurd (List.mem_map.mpr ⟨(p, r'), ht2, by rw [← he1]⟩) hnd'.1
    · exact absurd (List.mem_map.mpr ⟨(p, r), ht1, by rw [← he2]⟩) hnd'.1
    · exact assoc_nodup_eq hnd'.2 ht1 ht2

theorem mem_removeImage {m : Manifest} {p q : String} {r : AssetRec}
    (h : (p, r) ∈ m.images) (hne : p ≠ q) : (p, r) ∈ (removeImage m q).images := by
  unfold removeImage
  exact List.mem_filter.mpr ⟨h, by simpa using hne⟩

/-- If `p` is not in the worklist, or every processing of `p` returns the
`False` outcome of `gh_delete_file`, the deletion loop neither reports `p`
as deleted (beyond the accumulator) nor removes `p`'s entries. -/
theorem pruneDeleteLoop_skip (token : Option String) (remote : String → DeleteResp)
    (dryRun : Bool) (p : String) :
    ∀ (l : List String) (m : Manifest) (acc : List String),
    (p ∉ l ∨ gh_delete_file token remote p dryRun = Except.ok false) →
    (∀ d m', pruneDeleteLoop token remote dryRun l m acc = Except.ok (d, m') →
       (p ∈ d → p ∈ acc) ∧ ∀ r, (p, r) ∈ m.images → (p, r) ∈ m'.images) ∧
    (∀ e m', pruneDeleteLoop token remote dryRun l m acc = Except.error (e, m') →
       ∀ r, (p, r) ∈ m.images → (p, r) ∈ m'.images) := by
  intro l
  induction l with
  | nil =>
    intro m acc _
    constructor
    · intro d m' h
      have h' : acc = d ∧ m = m' := by
        simpa [pruneDeleteLoop] using h
      obtain ⟨h1, h2⟩ := h'
      subst h1; subst h2
      exact ⟨fun hd => hd, fun r hr => hr⟩
    · intro e m' h
      simp [pruneDeleteLoop] at h
  | cons q rest ih =>
    intro m acc hp
    have hp' : p ∉ rest ∨ gh_delete_file token remote p dryRun = Except.ok false := by
      rcases hp with hnl | hok
      · exact Or.inl (fun ht => hnl (List.mem_cons_of_mem q ht))
      · exact Or.inr hok
    rcases hgd : gh_delete_file token remote q dryRun with e' | b
    · constructor
      · intro d m' h
        simp [pruneDeleteLoop, hgd] at h
      · intro e m' h
        have h' : e' = e ∧ m = m' := by
          simpa [pruneDeleteLoop, hgd] using h
        rw [← h'.2]
        exact fun r hr => hr
    · cases b with
      | false =>
        have heq : pruneDeleteLoop token remote dryRun (q :: rest) m acc =
            pruneDeleteLoop token remote dryRun rest m acc := by
          simp [pruneDeleteLoop, hgd]
        rw [heq]
        exact ih m acc hp'
      | true =>
        have hne : p ≠ q := by
          rcases hp with hnl | hok
          · exact fun he => hnl (he ▸ List.mem_cons_self q rest)
          · intro he
            rw [he] at hok
            exact absurd (hok.symm.trans hgd) (by simp)
        have heq : pruneDeleteLoop token remote dryRun (q :: rest) m acc =
            pruneDeleteLoop token remote dryRun rest
              (if dryRun then m else removeImage m q) (acc ++ [q]) := by
          simp [pruneDeleteLoop, hgd]
        have hm2 : ∀ r, (p, r) ∈ m.images →
            (p, r) ∈ (if dryRun then m else removeImage m q).images := by
          intro r hr
          by_cases hd : dryRun
          · simpa [hd] using hr
          · simpa [hd] using mem_removeImage hr hne
        have ihr := ih (if dryRun then m else removeImage m q) (acc ++ [q]) hp'
        rw [heq]
        constructor
        · intro d m' h
          refine ⟨?_, fun r hr => (ihr.1 d m' h).2 r (hm2 r hr)⟩
          intro hd
          rcases List.mem_append.mp ((ihr.1 d m' h).1 hd) with ha | hq
          · exact ha
          · exact absurd (List.mem_singleton.mp hq) hne
        · intro e m' h
          exact fun r hr => ihr.2 e m' h r (hm2 r hr)

/-- With a valid token and live mode, the deletion loop raises (returns an
`error`) as soon as some worklist element's DELETE answers with a status
outside {200, 204}. -/
theorem pruneDeleteLoop_err (tk : String) (remote : String → DeleteResp) (htk : tk ≠ "") :
    ∀ (l : List String) (m : Manifest) (acc : List String),
    (∃ p ∈ l, ∃ s b, remote p = DeleteResp.resp s b ∧ ¬(s = 200 ∨ s = 204)) →
    ∃ e m', pruneDeleteLoop (some tk) remote false l m acc = Except.error (e, m') := by
  intro l
  induction l with
  | nil =>
    rintro m acc ⟨p, hp, -⟩
    exact absurd hp (List.not_mem_nil p)
  | cons q rest ih =>
    rintro m acc ⟨p, hp, s, b, hresp, hbad⟩
    have hhd : gh_headers (some tk) =
        Except.ok [("Authorization", "Bearer " ++ tk),
                   ("Accept", "application/vnd.github+json")] := by
      simp [gh_headers, htk]
    rcases hrq : remote q with _ | ⟨s', b'⟩
    · have hgd : gh_delete_file (some tk) remote q false = Except.ok false := by
        simp [gh_delete_file, hhd, hrq]
      have hrest : p ∈ rest := by
        rcases List.mem_cons.mp hp with he | ht
        · rw [he, hrq] at hresp; cases hresp
        · exact ht
      have heq : pruneDeleteLoop (some tk) remote false (q :: rest) m acc =
          pruneDeleteLoop (some tk) remote false rest m acc := by
        simp [pruneDeleteLoop, hgd]
      rw [heq]
      exact ih m acc ⟨p, hrest, s, b, hresp, hbad⟩
    · by_cases h200 : s' = 200 ∨ s' = 204
      · have hgd : gh_delete_file (some tk) remote q false = Except.ok true := by
          simp [gh_delete_file, hhd, hrq, h200]
        have hrest : p ∈ rest := by
          rcases List.mem_cons.mp hp with he | ht
          · rw [he, hrq] at hresp
            cases hresp
            exact absurd h200 hbad
          · exact ht
        have heq : pruneDeleteLoop (some tk) remote false (q :: rest) m acc =
            pruneDeleteLoop (some tk) remote false rest (removeImage m q) (acc ++ [q]) := by
          simp [pruneDeleteLoop, hgd]
        rw [heq]
        exact ih (removeImage m q) (acc ++ [q]) ⟨p, hrest, s, b, hresp, hbad⟩
      · have hgd : gh_delete_file (some tk) remote q false =
            Except.error ("Delete failed for " ++ q ++ ": " ++ toString s' ++ " " ++ b') := by
          simp [gh_delete_file, hhd, hrq, h200]
        refine ⟨"Delete failed for " ++ q ++ ": " ++ toString s' ++ " " ++ b', m, ?_⟩
        simp [pruneDeleteLoop, hgd]

/-- C1: `prune_old` never deletes, and never removes from the manifest, an
entry whose path is protected (starts with an entry of `PROTECT_PREFIXES`)
or is in the seen set — for every manifest, seen set, cutoff, dry-run flag
and remote behaviour, and in both the normal and the exception outcome. -/
theorem gc_never_deletes_protected_or_seen (token : Option String)
    (remote : String → DeleteResp) (m : Manifest) (seen : List String)
    (cutoff : String) (dryRun : Bool) (p : String)
    (hps : is_protected p = true ∨ p ∈ seen) :
    p ∉ pruneCandidates m seen cutoff ∧
    (∀ d m', prune_old token remote m seen cutoff dryRun = Except.ok (d, m') →
       p ∉ d ∧ ∀ r, (p, r) ∈ m.images → (p, r) ∈ m'.images) ∧
    (∀ e m', prune_old token remote m seen cutoff dryRun = Except.error (e, m') →
       ∀ r, (p, r) ∈ m.images → (p, r) ∈ m'.images) := by
  have hnc : p ∉ pruneCandidates m seen cutoff := by
    intro hc
    obtain ⟨r, _, hcand⟩ := mem_pruneCandidates.mp hc
    rcases hps with hP | hS
    · simp [isPruneCandidate, hP] at hcand
    · simp [isPruneCandidate, hS] at hcand
  have hskip := pruneDeleteLoop_skip token remote dryRun p
    (pruneCandidates m seen cutoff) m [] (Or.inl hnc)
  refine ⟨hnc, ?_, ?_⟩
  · intro d m' h
    have h' : pruneDeleteLoop token remote dryRun (pruneCandidates m seen cutoff) m []
        = Except.ok (d, m') := h
    exact ⟨fun hd => absurd ((hskip.1 d m' h').1 hd) (List.not_mem_nil p),
      (hskip.1 d m' h').2⟩
  · intro e m' h
    exact hskip.2 e m' h

/-- Witness for `gc_never_deletes_protected_or_seen`: the protected stale
entry of `mProtected` survives a live prune over an absent-object remote. -/
theorem gc_never_deletes_protected_or_seen_witness :
    (is_protected "img/static/pin.jpg" = true ∨
      "img/static/pin.jpg" ∈ ([] : List String)) ∧
    ("img/static/pin.jpg" ∉ pruneCandidates mProtected [] cutoff0 ∧
     (∀ d m', prune_old (some "tok") remoteAbsent mProtected [] cutoff0 false
         = Except.ok (d, m') →
       "img/static/pin.jpg" ∉ d ∧
       ∀ r, ("img/static/pin.jpg", r) ∈ mProtected.images →
         ("img/static/pin.jpg", r) ∈ m'.images) ∧
     (∀ e m', prune_old (some "tok") remoteAbsent mProtected [] cutoff0 false
         = Except.error (e, m') →
       ∀ r, ("img/static/pin.jpg", r) ∈ mProtected.images →
         ("img/static/pin.jpg", r) ∈ m'.images)) :=
  ⟨Or.inl (by decide),
   gc_never_deletes_protected_or_seen (some "tok") remoteAbsent mProtected [] cutoff0
     false "img/static/pin.jpg" (Or.inl (by decide))⟩

/-- C2: for an unprotected, unseen entry carrying a non-empty `last_seen`
timestamp `t`, the path is a deletion candidate iff `t` is strictly older
than the cutoff (the code's lexicographic string `<`, which on fixed-width
ISO-8601 UTC strings is chronological order); in particular `t = cutoff` is
not a candidate. -/
theorem gc_staleness_boundary (m : Manifest) (seen : List String) (cutoff p : String)
    (r : AssetRec) (t : String)
    (hnd : (m.images.map Prod.fst).Nodup)
    (hmem : (p, r) ∈ m.images)
    (hprot : is_protected p = false)
    (hseen : p ∉ seen)
    (hls : r.last_seen = some t) (hne : t ≠ "") :
    (p ∈ pruneCandidates m seen cutoff ↔ pyStrLt t cutoff = true) ∧
    (t = cutoff → p ∉ pruneCandidates m seen cutoff) := by
  have hcand : isPruneCandidate seen cutoff p r = pyStrLt t cutoff := by
    simp [isPruneCandidate, hprot, hseen, hls, hne]
  have hiff : p ∈ pruneCandidates m seen cutoff ↔ pyStrLt t cutoff = true := by
    constructor
    · intro hc
      obtain ⟨r', hm', hc'⟩ := mem_pruneCandidates.mp hc
      rw [assoc_nodup_eq hnd hm' hmem, hcand] at hc'
      exact hc'
    · intro hlt
      exact mem_pruneCandidates.mpr ⟨r, hmem, by rw [hcand]; exact hlt⟩
  refine ⟨hiff, ?_⟩
  intro heq hc
  rw [heq] at hiff
  exact absurd (hiff.mp hc) (by rw [pyStrLt_irrefl]; simp)

/-- Witness for `gc_staleness_boundary`: the stale entry of `mStale` is a
candidate because its `last_seen` is lexicographically below `cutoff0`. -/
theorem gc_staleness_boundary_witness :
    ((mStale.images.map Prod.fst).Nodup ∧
     ("img/a.jpg", recStale) ∈ mStale.images ∧
     is_protected "img/a.jpg" = false ∧
     "img/a.jpg" ∉ ([] : List String) ∧
     recStale.last_seen = some "2020-01-02T00:00:00Z" ∧
     "2020-01-02T00:00:00Z" ≠ "") ∧
    (("img/a.jpg" ∈ pruneCandidates mStale [] cutoff0 ↔
        pyStrLt "2020-01-02T00:00:00Z" cutoff0 = true) ∧
     ("2020-01-02T00:00:00Z" = cutoff0 →
        "img/a.jpg" ∉ pruneCandidates mStale [] cutoff0)) :=
  ⟨⟨by decide, by decide, by decide, by decide, rfl, by decide⟩,
   gc_staleness_boundary mStale [] cutoff0 "img/a.jpg" recStale "2020-01-02T00:00:00Z"
     (by decide) (by decide) (by decide) (by decide) rfl (by decide)⟩

/-- C10: an entry whose `last_seen` is missing or empty is never a deletion
candidate, hence never deleted and never removed from the manifest,
whatever the retention window, seen set, mode or remote behaviour. -/
theorem gc_skips_missing_last_seen (token : Option String)
    (remote : String → DeleteResp) (m : Manifest) (seen : List String)
    (cutoff : String) (dryRun : Bool) (p : String) (r : AssetRec)
    (hnd : (m.images.map Prod.fst).Nodup)
    (hmem : (p, r) ∈ m.images)
    (hfalsy : r.last_seen = none ∨ r.last_seen = some "") :
    p ∉ pruneCandidates m seen cutoff ∧
    (∀ d m', prune_old token remote m seen cutoff dryRun = Except.ok (d, m') →
       p ∉ d ∧ (p, r) ∈ m'.images) ∧
    (∀ e m', prune_old token remote m seen cutoff dryRun = Except.error (e, m') →
       (p, r) ∈ m'.images) := by
  have hnc : p ∉ pruneCandidates m seen cutoff := by
    intro hc
    obtain ⟨r', hm', hc'⟩ := mem_pruneCandidates.mp hc
    rw [assoc_nodup_eq hnd hm' hmem] at hc'
    rcases hfalsy with hf | hf <;> simp [isPruneCandidate, hf] at hc'
  have hskip := pruneDeleteLoop_skip token remote dryRun p
    (pruneCandidates m seen cutoff) m [] (Or.inl hnc)
  refine ⟨hnc, ?_, ?_⟩
  · intro d m' h
    have h' : pruneDeleteLoop token remote dryRun (pruneCandidates m seen cutoff) m []
        = Except.ok (d, m') := h
    exact ⟨fun hd => absurd ((hskip.1 d m' h').1 hd) (List.not_mem_nil p),
      (hskip.1 d m' h').2 r hmem⟩
  · intro e m' h
    exact hskip.2 e m' h r hmem

/-- Witness for `gc_skips_missing_last_seen`: the entry of `mNoSeen` (no
`last_seen` key) survives a live prune over a remote that would delete it. -/
theorem gc_skips_missing_last_seen_witness :
    ((mNoSeen.images.map Prod.fst).Nodup ∧
     ("img/a.jpg", recNoSeen) ∈ mNoSeen.images ∧
     (recNoSeen.last_seen = none ∨ recNoSeen.last_seen = some "")) ∧
    ("img/a.jpg" ∉ pruneCandidates mNoSeen [] cutoff0 ∧
     (∀ d m', prune_old (some "tok") (fun _ => DeleteResp.resp 200 "gone") mNoSeen []
         cutoff0 false = Except.ok (d, m') →
       "img/a.jpg" ∉ d ∧ ("img/a.jpg", recNoSeen) ∈ m'.images) ∧
     (∀ e m', prune_old (some "tok") (fun _ => DeleteResp.resp 200 "gone") mNoSeen []
         cutoff0 false = Except.error (e, m') →
       ("img/a.jpg", recNoSeen) ∈ m'.images)) :=
  ⟨⟨by decide, by decide, Or.inl rfl⟩,
   gc_skips_missing_last_seen (some "tok") (fun _ => DeleteResp.resp 200 "gone")
     mNoSeen [] cutoff0 false "img/a.jpg" recNoSeen (by decide) (by decide) (Or.inl rfl)⟩

/-- C3 counterexample: live prune of the stale candidate `img/a.jpg` over a
remote where the object is already absent.  The candidate list is
`["img/a.jpg"]`, yet the run reports no deletion and keeps the manifest
entry — the delete is NOT treated as a successful removal, contradicting
the claim. -/
theorem gc_absent_delete_cex :
    pruneCandidates mStale [] cutoff0 = ["img/a.jpg"] ∧
    prune_old (some "tok") remoteAbsent mStale [] cutoff0 false =
      Except.ok ([], mStale) :=
  ⟨by decide, rfl⟩

/-- C3 (amended): in live mode, a candidate whose object is already absent
at delete time is skipped without error: `gh_delete_file` returns `False`,
so the candidate is never reported as deleted and its manifest entry is
retained (the manifest drift is not reconciled). -/
theorem gc_absent_delete_skipped (tk : String) (remote : String → DeleteResp)
    (m : Manifest) (seen : List String) (cutoff p : String)
    (htk : tk ≠ "") (habs : remote p = DeleteResp.absent) :
    (∀ d m', prune_old (some tk) remote m seen cutoff false = Except.ok (d, m') →
       p ∉ d ∧ ∀ r, (p, r) ∈ m.images → (p, r) ∈ m'.images) ∧
    (∀ e m', prune_old (some tk) remote m seen cutoff false = Except.error (e, m') →
       ∀ r, (p, r) ∈ m.images → (p, r) ∈ m'.images) := by
  have hok : gh_delete_file (some tk) remote p false = Except.ok false := by
    simp [gh_delete_file, gh_headers, htk, habs]
  have hskip := pruneDeleteLoop_skip (some tk) remote false p
    (pruneCandidates m seen cutoff) m [] (Or.inr hok)
  constructor
  · intro d m' h
    have h' : pruneDeleteLoop (some tk) remote false (pruneCandidates m seen cutoff) m []
        = Except.ok (d, m') := h
    exact ⟨fun hd => absurd ((hskip.1 d m' h').1 hd) (List.not_mem_nil p),
      (hskip.1 d m' h').2⟩
  · intro e m' h
    exact hskip.2 e m' h

/-- Witness for `gc_absent_delete_skipped` on the concrete counterexample
input. -/
theorem gc_absent_delete_skipped_witness :
    (("tok" : String) ≠ "" ∧ remoteAbsent "img/a.jpg" = DeleteResp.absent) ∧
    ((∀ d m', prune_old (some "tok") remoteAbsent mStale [] cutoff0 false
        = Except.ok (d, m') →
      "img/a.jpg" ∉ d ∧
      ∀ r, ("img/a.jpg", r) ∈ mStale.images → ("img/a.jpg", r) ∈ m'.images) ∧
     (∀ e m', prune_old (some "tok") remoteAbsent mStale [] cutoff0 false
        = Except.error (e, m') →
      ∀ r, ("img/a.jpg", r) ∈ mStale.images → ("img/a.jpg", r) ∈ m'.images)) :=
  ⟨⟨by decide, rfl⟩,
   gc_absent_delete_skipped "tok" remoteAbsent mStale [] cutoff0 "img/a.jpg"
     (by decide) rfl⟩

/-- C4 counterexample: two stale candidates; deleting the first answers 500.
`prune_old` propagates the exception with the manifest untouched — the
second candidate is never processed and no deleted list is returned,
contradicting the claim that a failed delete never aborts the pass. -/
theorem gc_delete_failure_cex :
    pruneCandidates mTwoStale [] cutoff0 = ["img/a.jpg", "img/b.jpg"] ∧
    prune_old (some "tok") remoteFailA mTwoStale [] cutoff0 false =
      Except.error ("Delete failed for img/a.jpg: 500 boom", mTwoStale) :=
  ⟨by decide, rfl⟩

/-- C4 (amended): in live mode with a valid token, a per-candidate delete
failure other than already-absent (a DELETE status outside {200, 204})
raises: `prune_old` returns the exception instead of a deleted list,
aborting the processing of the remaining candidates. -/
theorem gc_delete_failure_aborts (tk : String) (remote : String → DeleteResp)
    (m : Manifest) (seen : List String) (cutoff : String)
    (htk : tk ≠ "")
    (hbad : ∃ p ∈ pruneCandidates m seen cutoff, ∃ s b,
       remote p = DeleteResp.resp s b ∧ ¬(s = 200 ∨ s = 204)) :
    ∃ e m', prune_old (some tk) remote m seen cutoff false = Except.error (e, m') :=
  pruneDeleteLoop_err tk remote htk (pruneCandidates m seen cutoff) m [] hbad

/-- Witness for `gc_delete_failure_aborts` on the concrete counterexample
input. -/
theorem gc_delete_failure_aborts_witness :
    (("tok" : String) ≠ "" ∧
     ∃ p ∈ pruneCandidates mTwoStale [] cutoff0, ∃ s b,
       remoteFailA p = DeleteResp.resp s b ∧ ¬(s = 200 ∨ s = 204)) ∧
    ∃ e m', prune_old (some "tok") remoteFailA mTwoStale [] cutoff0 false =
      Except.error (e, m') :=
  ⟨⟨by decide, "img/a.jpg", by decide, 500, "boom", by decide, by decide⟩,
   gc_delete_failure_aborts "tok" remoteFailA mTwoStale [] cutoff0 (by decide)
     ⟨"img/a.jpg", by decide, 500, "boom", by decide, by decide⟩⟩

/-! ### Sync-engine infrastructure lemmas -/

theorem lookupImage_map_upd_self (k : String) (v : AssetRec) :
    ∀ l : List (String × AssetRec), l.any (fun e => e.1 = k) = true →
    lookupImage (l.map (fun e => if e.1 = k then (k, v) else e)) k = some v := by
  intro l
  induction l with
  | nil => intro h; simp at h
  | cons e l ih =>
    intro h
    by_cases he : e.1 = k
    · simp [lookupImage, he]
    · have h' : l.any (fun e => e.1 = k) = true := by simpa [List.any_cons, he] using h
      simp [lookupImage, he, ih h']

theorem lookupImage_append_self (k : String) (v : AssetRec) :
    ∀ l : List (String × AssetRec), l.any (fun e => e.1 = k) = false →
    lookupImage (l ++ [(k, v)]) k = some v := by
  intro l
  induction l with
  | nil => intro _; simp [lookupImage]
  | cons e l ih =>
    intro h
    have he : ¬(e.1 = k) := by
      intro hk
      simp [List.any_cons, hk] at h
    have h' : l.any (fun e => e.1 = k) = false := by simpa [List.any_cons, he] using h
    simp [lookupImage, he, ih h']

theorem lookupImage_map_upd_other (k p : String) (v : AssetRec) (h : p ≠ k) :
    ∀ l : List (String × AssetRec),
    lookupImage (l.map (fun e => if e.1 = k then (k, v) else e)) p = lookupImage l p := by
  intro l
  induction l with
  | nil => rfl
  | cons e l ih =>
    by_cases he : e.1 = k
    · have h1 : ¬(k = p) := Ne.symm h
      have h2 : ¬(e.1 = p) := by rw [he]; exact h1
      simp [lookupImage, he, h1, h2, ih]
    · by_cases hp : e.1 = p <;> simp [lookupImage, he, hp, ih, h]

theorem lookupImage_append_other (k p : String) (v : AssetRec) (h : p ≠ k) :
    ∀ l : List (String × AssetRec),
    lookupImage (l ++ [(k, v)]) p = lookupImage l p := by
  intro l
  induction l with
  | nil => simp [lookupImage, Ne.symm h]
  | cons e l ih => by_cases hp : e.1 = p <;> simp [lookupImage, hp, ih]

theorem lookupImage_setImage_self (l : List (String × AssetRec)) (k : String)
    (v : AssetRec) : lookupImage (setImage l k v) k = some v := by
  unfold setImage
  by_cases h : l.any (fun e => e.1 = k) = true
  · rw [if_pos h]; exact lookupImage_map_upd_self k v l h
  · rw [if_neg h]
    have h' : l.any (fun e => e.1 = k) = false := by
      cases hb : l.any (fun e => e.1 = k)
      · rfl
      · exact absurd hb h
    exact lookupImage_append_self k v l h'

theorem lookupImage_setImage_other (l : List (String × AssetRec)) (k p : String)
    (v : AssetRec) (h : p ≠ k) :
    lookupImage (setImage l k v) p = lookupImage l p := by
  unfold setImage
  by_cases hany : l.any (fun e => e.1 = k) = true
  · rw [if_pos hany]; exact lookupImage_map_upd_other k p v h l
  · rw [if_neg hany]; exact lookupImage_append_other k p v h l

theorem lookupImage_upsert_self (l : List (String × AssetRec)) (rel now t s : String) :
    ∃ rec, lookupImage (upsertImage l rel now t s) rel = some rec ∧
      rec.last_seen = some now ∧
      rec.first_added = (match lookupImage l rel with
                         | some r0 => r0.first_added
                         | none => some now) := by
  rcases h : lookupImage l rel with _ | r0 <;>
  · simp only [upsertImage, h]
    exact ⟨_, lookupImage_setImage_self _ _ _, rfl, rfl⟩

theorem lookupImage_upsert_other (l : List (String × AssetRec))
    (rel now t s p : String) (h : p ≠ rel) :
    lookupImage (upsertImage l rel now t s) p = lookupImage l p := by
  simp only [upsertImage]
  exact lookupImage_setImage_other _ _ _ _ h

theorem lookupImage_isSome_iff : ∀ (l : List (String × AssetRec)) (p : String),
    (lookupImage l p).isSome = true ↔ p ∈ l.map Prod.fst := by
  intro l
  induction l with
  | nil => intro p; simp [lookupImage]
  | cons e l ih =>
    intro p
    by_cases he : e.1 = p
    · simp [lookupImage, he]
    · simp only [lookupImage, if_neg he, List.map_cons, List.mem_cons]
      rw [ih p]
      constructor
      · intro h; exact Or.inr h
      · rintro (h | h)
        · exact absurd h.symm he
        · exact h

theorem processEvent_fst (env : SyncEnv) (now : String) (st : SyncState) (ev : Event) :
    (processEvent env now st ev).1 = annotateEvent env ev := by
  cases h : ev.image with
  | none => simp [processEvent, annotateEvent, h]
  | some src =>
    simp only [processEvent, annotateEvent, h]
    by_cases hs : src = ""
    · simp [hs]
    · simp only [if_neg hs]
      cases pipelineStep env ev src <;> rfl

theorem processEvent_images (env : SyncEnv) (now : String) (st : SyncState) (ev : Event) :
    (processEvent env now st ev).2.images =
      (match evOutcome env ev with
       | some rel => upsertImage st.images rel now (ev.title.getD "") (ev.image.getD "")
       | none => st.images) := by
  cases h : ev.image with
  | none => simp [processEvent, evOutcome, h]
  | some src =>
    simp only [processEvent, evOutcome, h]
    by_cases hs : src = ""
    · simp [hs]
    · simp only [if_neg hs]
      cases pipelineStep env ev src <;> simp

theorem processEventsAux_fst (env : SyncEnv) (now : String) :
    ∀ (events : List Event) (st : SyncState),
    (processEventsAux env now events st).1 = events.map (annotateEvent env) := by
  intro events
  induction events with
  | nil => intro st; rfl
  | cons ev rest ih =>
    intro st
    simp [processEventsAux, processEvent_fst, ih]

theorem producedPaths_cons (env : SyncEnv) (ev : Event) (rest : List Event) :
    producedPaths env (ev :: rest) =
      (match evOutcome env ev with
       | some rel => rel :: producedPaths env rest
       | none => producedPaths env rest) := by
  unfold producedPaths
  rw [List.filterMap_cons]
  cases evOutcome env ev <;> rfl

theorem lookup_run_not_produced (env : SyncEnv) (now : String) :
    ∀ (events : List Event) (st : SyncState) (p : String),
    p ∉ producedPaths env events →
    lookupImage (processEventsAux env now events st).2.images p
      = lookupImage st.images p := by
  intro events
  induction events with
  | nil => intro st p _; rfl
  | cons ev rest ih =>
    intro st p hp
    have htail : p ∉ producedPaths env rest := by
      intro ht
      apply hp
      rw [producedPaths_cons]
      cases ho : evOutcome env ev
      · exact ht
      · exact List.mem_cons_of_mem _ ht
    have hstep : lookupImage (processEvent env now st ev).2.images p
        = lookupImage st.images p := by
      rw [processEvent_images]
      rcases ho : evOutcome env ev with _ | rel
      · rfl
      · have hne : p ≠ rel := by
          intro he
          apply hp
          rw [producedPaths_cons, ho, he]
          exact List.mem_cons_self _ _
        exact lookupImage_upsert_other _ _ _ _ _ _ hne
    have haux : (processEventsAux env now (ev :: rest) st).2
        = (processEventsAux env now rest (processEvent env now st ev).2).2 := rfl
    rw [haux, ih (processEvent env now st ev).2 p htail, hstep]

theorem lookup_run_produced (env : SyncEnv) (now : String) :
    ∀ (events : List Event) (st : SyncState) (p : String),
    p ∈ producedPaths env events →
    ∃ rec, lookupImage (processEventsAux env now events st).2.images p = some rec ∧
      rec.last_seen = some now ∧
      rec.first_added = (match lookupImage st.images p with
                         | some r0 => r0.first_added
                         | none => some now) := by
  intro events
  induction events with
  | nil => intro st p hp; exact absurd hp (List.not_mem_nil p)
  | cons ev rest ih =>
    intro st p hp
    have haux : (processEventsAux env now (ev :: rest) st).2
        = (processEventsAux env now rest (processEvent env now st ev).2).2 := rfl
    rcases ho : evOutcome env ev with _ | rel
    · have hp' : p ∈ producedPaths env rest := by
        rw [producedPaths_cons, ho] at hp; exact hp
      have himg : (processEvent env now st ev).2.images = st.images := by
        rw [processEvent_images, ho]
      rw [haux]
      obtain ⟨rec, h1, h2, h3⟩ := ih (processEvent env now st ev).2 p hp'
      rw [himg] at h3
      exact ⟨rec, h1, h2, h3⟩
    · have himg : (processEvent env now st ev).2.images
          = upsertImage st.images rel now (ev.title.getD "") (ev.image.getD "") := by
        rw [processEvent_images, ho]
      by_cases hrest : p ∈ producedPaths env rest
      · rw [haux]
        obtain ⟨rec, h1, h2, h3⟩ := ih (processEvent env now st ev).2 p hrest
        refine ⟨rec, h1, h2, ?_⟩
        rw [h3, himg]
        by_cases hpr : p = rel
        · subst hpr
          obtain ⟨rec1, e1, _, e3⟩ :=
            lookupImage_upsert_self st.images p now (ev.title.getD "") (ev.image.getD "")
          rw [e1]
          dsimp only
          exact e3
        · rw [lookupImage_upsert_other _ _ _ _ _ _ hpr]
      · have hpr : p = rel := by
          rw [producedPaths_cons, ho] at hp
          rcases List.mem_cons.mp hp with he | ht
          · exact he
          · exact absurd ht hrest
        subst hpr
        rw [haux, lookup_run_not_produced env now rest _ p hrest, himg]
        exact lookupImage_upsert_self st.images p now (ev.title.getD "") (ev.image.getD "")

/-- C6: re-running the sync on the same unchanged event list (same
environment: same fetch/upload outcomes, same token, same external slug and
hash functions) is idempotent on the manifest.  Starting from empty, after
run 1 at `now1` and run 2 at `now2 ≥ now1`: the set of manifest paths is
unchanged, every record keeps its run-1 `first_added` (= `now1`), its
`last_seen` is advanced to `now2`, and consequently `first_added ≤
last_seen` (Python string `<=`, chronological on ISO-8601 UTC stamps). -/
theorem resync_idempotent (env : SyncEnv) (events : List Event) (now1 now2 : String)
    (h12 : pyStrLe now1 now2 = true)
    (m1 m2 : Manifest)
    (h1 : m1 = (process_events env now1 events { images := [] }).2.1)
    (h2 : m2 = (process_events env now2 events m1).2.1) :
    (∀ p, p ∈ m2.images.map Prod.fst ↔ p ∈ m1.images.map Prod.fst) ∧
    (∀ p rec2, lookupImage m2.images p = some rec2 →
       ∃ rec1, lookupImage m1.images p = some rec1 ∧
         rec2.first_added = rec1.first_added ∧
         rec1.first_added = some now1 ∧ rec1.last_seen = some now1 ∧
         rec2.last_seen = some now2 ∧
         (∀ fa ls, rec2.first_added = some fa → rec2.last_seen = some ls →
            pyStrLe fa ls = true)) := by
  have hm1 : m1.images
      = (processEventsAux env now1 events { images := [], seen := [] }).2.images := by
    rw [h1]; rfl
  have hm2 : m2.images
      = (processEventsAux env now2 events { images := m1.images, seen := [] }).2.images := by
    rw [h2]; rfl
  have run1p : ∀ p, p ∈ producedPaths env events →
      ∃ rec, lookupImage m1.images p = some rec ∧
        rec.last_seen = some now1 ∧ rec.first_added = some now1 := by
    intro p hp
    obtain ⟨rec, e1, e2, e3⟩ :=
      lookup_run_produced env now1 events { images := [], seen := [] } p hp
    rw [← hm1] at e1
    exact ⟨rec, e1, e2, e3.trans rfl⟩
  have run1n : ∀ p, p ∉ producedPaths env events → lookupImage m1.images p = none := by
    intro p hp
    have := lookup_run_not_produced env now1 events { images := [], seen := [] } p hp
    rw [← hm1] at this
    exact this.trans rfl
  have run2p : ∀ p, p ∈ producedPaths env events →
      ∃ rec, lookupImage m2.images p = some rec ∧
        rec.last_seen = some now2 ∧
        rec.first_added = (match lookupImage m1.images p with
                           | some r0 => r0.first_added
                           | none => some now2) := by
    intro p hp
    obtain ⟨rec, e1, e2, e3⟩ :=
      lookup_run_produced env now2 events { images := m1.images, seen := [] } p hp
    rw [← hm2] at e1
    exact ⟨rec, e1, e2, e3⟩
  have run2n : ∀ p, p ∉ producedPaths env events →
      lookupImage m2.images p = lookupImage m1.images p := by
    intro p hp
    have := lookup_run_not_produced env now2 events { images := m1.images, seen := [] } p hp
    rw [← hm2] at this
    exact this
  constructor
  · intro p
    by_cases hp : p ∈ producedPaths env events
    · obtain ⟨r2, e2, -, -⟩ := run2p p hp
      obtain ⟨r1, e1, -, -⟩ := run1p p hp
      rw [← lookupImage_isSome_iff, ← lookupImage_isSome_iff, e1, e2]
      simp
    · rw [← lookupImage_isSome_iff, ← lookupImage_isSome_iff, run2n p hp]
  · intro p rec2 hrec2
    by_cases hp : p ∈ producedPaths env events
    · obtain ⟨rec1, e1, e1ls, e1fa⟩ := run1p p hp
      obtain ⟨rec2', f1, f2, f3⟩ := run2p p hp
      have hr : rec2' = rec2 := by
        rw [hrec2] at f1
        exact (Option.some_inj.mp f1).symm
      subst hr
      rw [e1] at f3
      dsimp only at f3
      refine ⟨rec1, e1, f3, e1fa, e1ls, f2, ?_⟩
      intro fa ls hfa hls
      have hfa' : fa = now1 := by
        rw [f3, e1fa] at hfa
        exact (Option.some_inj.mp hfa).symm
      have hls' : ls = now2 := by
        rw [f2] at hls
        exact (Option.some_inj.mp hls).symm
      rw [hfa', hls']
      exact h12
    · rw [run2n p hp, run1n p hp] at hrec2
      cases hrec2

/-- Witness for `resync_idempotent`: syncing `[evFarmers]` twice under
`envOk` at the same timestamp reproduces `mFarmers1` exactly. -/
theorem resync_idempotent_witness :
    (pyStrLe "2025-09-06T00:00:00Z" "2025-09-06T00:00:00Z" = true ∧
     mFarmers1 = (process_events envOk "2025-09-06T00:00:00Z" [evFarmers]
       { images := [] }).2.1 ∧
     mFarmers1 = (process_events envOk "2025-09-06T00:00:00Z" [evFarmers]
       mFarmers1).2.1) ∧
    ((∀ p, p ∈ mFarmers1.images.map Prod.fst ↔ p ∈ mFarmers1.images.map Prod.fst) ∧
     (∀ p rec2, lookupImage mFarmers1.images p = some rec2 →
        ∃ rec1, lookupImage mFarmers1.images p = some rec1 ∧
          rec2.first_added = rec1.first_added ∧
          rec1.first_added = some "2025-09-06T00:00:00Z" ∧
          rec1.last_seen = some "2025-09-06T00:00:00Z" ∧
          rec2.last_seen = some "2025-09-06T00:00:00Z" ∧
          (∀ fa ls, rec2.first_added = some fa → rec2.last_seen = some ls →
             pyStrLe fa ls = true))) :=
  ⟨⟨by decide, by decide, by decide⟩,
   resync_idempotent envOk [evFarmers] "2025-09-06T00:00:00Z" "2025-09-06T00:00:00Z"
     (by decide) mFarmers1 mFarmers1 (by decide) (by decide)⟩

/-- C7: the annotated output list is the input list mapped through a
per-event annotation that never looks at the other events or at the loop
state — so it has the same length, and one failing event cannot affect any
other.  On clean input (no pre-existing annotation keys) each event with a
source URL ends with exactly one of `image_jpg` (pipeline success) or
`image_jpg_error` (any per-item failure), never both, and an event with no
source URL passes through unchanged, gaining neither key. -/
theorem sync_partial_failure_isolation (env : SyncEnv) (now : String)
    (events : List Event) (m0 : Manifest)
    (hclean : ∀ ev ∈ events, ev.image_jpg = none ∧ ev.image_jpg_error = none) :
    (process_events env now events m0).1 = events.map (annotateEvent env) ∧
    (process_events env now events m0).1.length = events.length ∧
    (∀ ev ∈ events,
      ((ev.image = none ∨ ev.image = some "") → annotateEvent env ev = ev) ∧
      (∀ src, ev.image = some src → src ≠ "" →
        (((annotateEvent env ev).image_jpg).isSome = true ∧
         (annotateEvent env ev).image_jpg_error = none) ∨
        ((annotateEvent env ev).image_jpg = none ∧
         ((annotateEvent env ev).image_jpg_error).isSome = true))) := by
  have hmap : (process_events env now events m0).1 = events.map (annotateEvent env) :=
    processEventsAux_fst env now events _
  refine ⟨hmap, by rw [hmap, List.length_map], ?_⟩
  intro ev hev
  obtain ⟨hcl1, hcl2⟩ := hclean ev hev
  constructor
  · rintro (h | h) <;> simp [annotateEvent, h]
  · intro src hsrc hne
    rcases hp : pipelineStep env ev src with e | rel
    · right
      simp [annotateEvent, hsrc, hne, hp, hcl1]
    · left
      simp [annotateEvent, hsrc, hne, hp, hcl2]

/-- Witness for `sync_partial_failure_isolation` on the concrete scenario
batch `[evFarmers]`. -/
theorem sync_partial_failure_isolation_witness :
    (∀ ev ∈ [evFarmers], ev.image_jpg = none ∧ ev.image_jpg_error = none) ∧
    ((process_events envOk "2025-09-06T00:00:00Z" [evFarmers] { images := [] }).1
       = [evFarmers].map (annotateEvent envOk) ∧
     (process_events envOk "2025-09-06T00:00:00Z" [evFarmers] { images := [] }).1.length
       = [evFarmers].length ∧
     (∀ ev ∈ [evFarmers],
       ((ev.image = none ∨ ev.image = some "") → annotateEvent envOk ev = ev) ∧
       (∀ src, ev.image = some src → src ≠ "" →
         (((annotateEvent envOk ev).image_jpg).isSome = true ∧
          (annotateEvent envOk ev).image_jpg_error = none) ∨
         ((annotateEvent envOk ev).image_jpg = none ∧
          ((annotateEvent envOk ev).image_jpg_error).isSome = true)))) :=
  ⟨by decide,
   sync_partial_failure_isolation envOk "2025-09-06T00:00:00Z" [evFarmers]
     { images := [] } (by decide)⟩

/-- C9 counterexample: with `GITHUB_TOKEN` absent but the source fetch
succeeding, the run does not fail before per-event work — the missing
credential surfaces as a per-event `image_jpg_error` annotation
(`str` of the `RuntimeError` raised by `gh_headers` inside the per-event
`try` block), and processing completes normally. -/
theorem missing_token_annotated_cex :
    (process_events envNoToken "2025-01-01T00:00:00Z" [evPlain] { images := [] }).1 =
      [{ evPlain with image_jpg_error := some missingTokenMsg }] := by
  decide

/-- C9 (amended): absence of the remote-store credential is not fatal
before per-event work and is not surfaced before network activity: the
sync loop runs to completion over all events, and every event whose source
fetch and transcode succeed is annotated with `image_jpg_error` carrying
the missing-token message — the configuration error is recovered at
per-event granularity. -/
theorem missing_token_recovered_per_event (env : SyncEnv) (now : String)
    (events : List Event) (m0 : Manifest)
    (htok : env.token = none) :
    (process_events env now events m0).1 = events.map (annotateEvent env) ∧
    (∀ ev src, ev.image = some src → src ≠ "" → env.fetchR src = Except.ok () →
      annotateEvent env ev = { ev with image_jpg_error := some missingTokenMsg }) := by
  refine ⟨processEventsAux_fst env now events _, ?_⟩
  intro ev src hsrc hne hfetch
  have hpipe : pipelineStep env ev src = Except.error missingTokenMsg := by
    simp only [pipelineStep, gh_put_file, gh_headers, htok, hfetch]
    rfl
  simp [annotateEvent, hsrc, hne, hpipe]

/-- Witness for `missing_token_recovered_per_event` on the counterexample
input. -/
theorem missing_token_recovered_per_event_witness :
    (envNoToken.token = none ∧ evPlain.image = some "u" ∧ ("u" : String) ≠ "" ∧
     envNoToken.fetchR "u" = Except.ok ()) ∧
    annotateEvent envNoToken evPlain =
      { evPlain with image_jpg_error := some missingTokenMsg } :=
  ⟨⟨rfl, rfl, by decide, rfl⟩,
   (missing_token_recovered_per_event envNoToken "2025-01-01T00:00:00Z" [evPlain]
     { images := [] } rfl).2 evPlain "u" rfl (by decide) rfl⟩

/-- C8 counterexample: a transport-level exception during the manifest
fetch (`requests.get` raising, e.g. a connection error) is NOT caught by
`load_manifest` — the exception propagates instead of an empty manifest
being returned. -/
theorem load_manifest_transport_error_cex :
    load_manifest (Except.error "ConnectionError") (fun _ => none) =
      Except.error "ConnectionError" ∧
    load_manifest (Except.error "ConnectionError") (fun _ => none) ≠
      Except.ok { images := [] } :=
  ⟨rfl, fun h => Except.noConfusion h⟩

/-- C8 (amended): `load_manifest` substitutes the empty manifest for a
non-success response and for malformed content (the `json.loads` failure),
and passes a successfully parsed manifest through — but a transport
exception raised by the fetch itself propagates and is not recovered. -/
theorem load_manifest_amended (parseManifest : String → Option Manifest)
    (status : Nat) (text e : String) (m : Manifest) :
    (status ≠ 200 → load_manifest (Except.ok (status, text)) parseManifest =
       Except.ok { images := [] }) ∧
    (status = 200 → parseManifest text = none →
       load_manifest (Except.ok (status, text)) parseManifest =
         Except.ok { images := [] }) ∧
    (status = 200 → parseManifest text = some m →
       load_manifest (Except.ok (status, text)) parseManifest = Except.ok m) ∧
    load_manifest (Except.error e) parseManifest = Except.error e := by
  refine ⟨?_, ?_, ?_, rfl⟩
  · intro h; simp [load_manifest, h]
  · intro h hp; simp [load_manifest, h, hp]
  · intro h hp; simp [load_manifest, h, hp]

/-- Witness for `load_manifest_amended`: a 404 yields the empty manifest. -/
theorem load_manifest_amended_witness :
    ((404 : Nat) ≠ 200) ∧
    load_manifest (Except.ok (404, "Not Found")) (fun _ => none) =
      Except.ok { images := [] } :=
  ⟨by decide,
   (load_manifest_amended (fun _ => none) 404 "Not Found" "e" { images := [] }).1
     (by decide)⟩

end BulletinAssets
